import Mathlib

/-!
# Verification of the Chrono binary archive engine (`ChArchiveBinary.h`)

This file embeds the binary serialization core of Project Chrono —
`ChArchiveOutBinary` / `ChArchiveInBinary` from
`src/chrono/serialization/ChArchiveBinary.h` — as executable Lean
definitions, and proves round-trip, branch-structure, and error-handling
properties about it.

The archive classes delegate primitive I/O to `ChStreamOutBinary` /
`ChStreamInBinary` and identity bookkeeping to the `ChArchive` base
(`PutPointer`, `objects_pointers`, `NVP_TRACK_OBJECT`); the sources of
those collaborators are not part of the repository snapshot, so they are
modelled from the specification (fixed-width little-endian numerics,
length-prefixed strings, lookup-or-append identity registry) as indicated
in each doc comment.

The stream is a list of abstract bytes (`Nat`, values `< 256` where the
model emits them).
-/

namespace ChronoSpec

/-- Modelled from the spec: the primitive stream writes fixed-width numerics
as `w` little-endian bytes (`ChStreamOutBinary` is not in the sources;
spec §6: "native-width binary form"). -/
def wBytes : Nat → Nat → List Nat
  | 0, _ => []
  | w + 1, v => v % 256 :: wBytes w (v / 256)

/-- Modelled from the spec: the primitive stream reads a fixed-width numeric
as `w` little-endian bytes, failing on a truncated stream. -/
def rBytes : Nat → List Nat → Option (Nat × List Nat)
  | 0, l => some (0, l)
  | _ + 1, [] => none
  | w + 1, b :: l => (rBytes w l).map fun p => (b + 256 * p.1, p.2)

/-- Modelled from the spec: strings are written length-prefixed
(spec §6: "length-prefixed binary blob", lengths as `uint64`). -/
def wStr (s : List Nat) : List Nat :=
  wBytes 8 s.length ++ s

/-- Modelled from the spec: a string is read back as a `uint64` length
prefix followed by that many raw bytes. -/
def rStr (l : List Nat) : Option (List Nat × List Nat) :=
  match rBytes 8 l with
  | none => none
  | some (n, rest) =>
    if n ≤ rest.length then some (rest.take n, rest.drop n) else none

/-- The sentinel token "oID" (`'o' = 111`, `'I' = 73`, `'D' = 68`) used by
the archive to mark a back-reference to an already-serialized object. -/
def oID : List Nat := [111, 73, 68]

/-- Kinds of primitive values accepted by the archive `out`/`in` overloads
(`bool`, `int`, `double`, `float`, `char`, `unsigned int`, `std::string`,
`unsigned long`, `unsigned long long`). -/
inductive PrimKind : Type
  | kBool | kInt | kDouble | kFloat | kChar | kUInt | kString | kULong | kULongLong
  deriving DecidableEq, Repr

/-- Primitive values carried by `ChNameValue` wrappers. Floating-point
values are modelled by their bit patterns (the archive copies the raw
representation and never interprets it), `int` by a mathematical integer
serialized in 32-bit two's complement, strings by raw byte lists. -/
inductive PrimVal : Type
  | vBool (b : Bool)
  | vInt (i : Int)
  | vDouble (bits : Nat)
  | vFloat (bits : Nat)
  | vChar (c : Nat)
  | vUInt (n : Nat)
  | vString (s : List Nat)
  | vULong (n : Nat)
  | vULongLong (n : Nat)
  deriving DecidableEq, Repr

/-- The kind of a primitive value. -/
def PrimVal.kind : PrimVal → PrimKind
  | .vBool _ => .kBool
  | .vInt _ => .kInt
  | .vDouble _ => .kDouble
  | .vFloat _ => .kFloat
  | .vChar _ => .kChar
  | .vUInt _ => .kUInt
  | .vString _ => .kString
  | .vULong _ => .kULong
  | .vULongLong _ => .kULongLong

/-- Range constraints making a primitive value representable at its native
width: the C++ types carried by the archive. -/
def PrimVal.wfb : PrimVal → Bool
  | .vBool _ => true
  | .vInt i => decide (-(2 ^ 31) ≤ i ∧ i < 2 ^ 31)
  | .vDouble bits => decide (bits < 2 ^ 64)
  | .vFloat bits => decide (bits < 2 ^ 32)
  | .vChar c => decide (c < 256)
  | .vUInt n => decide (n < 2 ^ 32)
  | .vString s => decide (s.length < 2 ^ 64 ∧ ∀ b ∈ s, b < 256)
  | .vULong n => decide (n < 2 ^ 64)
  | .vULongLong n => decide (n < 2 ^ 64)

/-- Modelled from the spec: 32-bit two's-complement encoding of a C++ `int`
as the archive's stream operator writes it. -/
def intEnc (i : Int) : Nat := (i % (2 ^ 32 : Int)).toNat

/-- Modelled from the spec: decoding of a 32-bit two's-complement pattern. -/
def intDec (n : Nat) : Int :=
  if n < 2 ^ 31 then (n : Int) else (n : Int) - 2 ^ 32

/-- Modelled from the spec: the bytes `ChStreamOutBinary`'s insertion
operator appends for each primitive value (spec §6: fixed-width binary
numerics, one-byte `bool`/`char`, length-prefixed strings). -/
def streamWrite : PrimVal → List Nat
  | .vBool b => [if b then 1 else 0]
  | .vInt i => wBytes 4 (intEnc i)
  | .vDouble bits => wBytes 8 bits
  | .vFloat bits => wBytes 4 bits
  | .vChar c => [c % 256]
  | .vUInt n => wBytes 4 n
  | .vString s => wStr s
  | .vULong n => wBytes 8 n
  | .vULongLong n => wBytes 8 n

/-- Modelled from the spec: the extraction operator of `ChStreamInBinary`,
reading one primitive of the statically requested kind (the wire format is
untagged; the reader asks for kinds in the writer's order). -/
def streamRead : PrimKind → List Nat → Option (PrimVal × List Nat)
  | .kBool, l =>
    match l with
    | [] => none
    | b :: rest => some (.vBool (b ≠ 0), rest)
  | .kInt, l => (rBytes 4 l).map fun (n, rest) => (.vInt (intDec n), rest)
  | .kDouble, l => (rBytes 8 l).map fun (n, rest) => (.vDouble n, rest)
  | .kFloat, l => (rBytes 4 l).map fun (n, rest) => (.vFloat n, rest)
  | .kChar, l =>
    match l with
    | [] => none
    | b :: rest => some (.vChar b, rest)
  | .kUInt, l => (rBytes 4 l).map fun (n, rest) => (.vUInt n, rest)
  | .kString, l => (rStr l).map fun (s, rest) => (.vString s, rest)
  | .kULong, l => (rBytes 8 l).map fun (n, rest) => (.vULong n, rest)
  | .kULongLong, l => (rBytes 8 l).map fun (n, rest) => (.vULongLong n, rest)

/-! ## Archive state and identity registry -/

/-- Write-side archive state: the bytes emitted so far on the bound
`ChStreamOutBinary`, and the session Object Registry (`objects_pointers`
of `ChArchiveOut`): object identities in first-visit order, the position
being the sequential `obj_ID`. -/
structure WState where
  out : List Nat
  reg : List Nat
  deriving DecidableEq, Repr

/-- Append bytes to the output stream. -/
def emit (s : WState) (bs : List Nat) : WState := { s with out := s.out ++ bs }

/-- Position of identity `p` in the registry, if present. -/
def regLookup : List Nat → Nat → Option Nat
  | [], _ => none
  | a :: l, p => if a = p then some 0 else (regLookup l p).map (· + 1)

/-- Modelled from the spec: `ChArchive::PutPointer` (declared in the
`ChArchive.h` base, not in the sources; spec §4.3): look the identity up,
returning `(true, existing_id)` when present, else append it at the next
sequential ID and return `(false, new_id)`; the third component is the
updated registry. -/
def PutPointer (reg : List Nat) (p : Nat) : Bool × Nat × List Nat :=
  match regLookup reg p with
  | some i => (true, i, reg)
  | none => (false, reg.length, reg ++ [p])

/-- A field value of a serializable object: an embedded primitive or a
tracked polymorphic pointer (an address into the session heap). -/
inductive FieldVal : Type
  | fvPrim (v : PrimVal)
  | fvRef (addr : Nat)
  deriving DecidableEq, Repr

/-- A serializable object: its concrete class name, the primitives consumed
by its constructor-argument callbacks, and its fields. -/
structure Obj where
  cls : List Nat
  ctorArgs : List PrimVal
  fields : List FieldVal
  deriving DecidableEq, Repr

/-- Read-side archive state: the unread input bytes, the session Object
Registry (`objects_pointers` of `ChArchiveIn`: identities indexed by
sequential ID), and the heap of instances constructed so far (identities
are positions in this list). -/
structure RState where
  inp : List Nat
  reg : List Nat
  heap : List Obj
  deriving DecidableEq, Repr

/-- Error taxonomy of the read side (spec §7): stream exhaustion,
construction failure (the two `ChExceptionArchive` messages of
`in_ref_polimorphic` and `in_ref`, the former naming the class), a
back-reference to an unregistered ID (modelled from the spec, §4.3
`resolveOnRead`), and an unreachable-model marker. -/
inductive ArchErr : Type
  | streamEnd
  | ctorFailPoly (cls : List Nat)
  | ctorFailPlain
  | danglingRef (id : Nat)
  | stuck
  deriving DecidableEq, Repr

/-- Result of a read-side operation: C++ exceptions do not roll back the
archive's member state, so errors carry the state at the throw site. -/
abbrev RRes (α : Type) := Except (ArchErr × RState) (α × RState)

/-! ## `ChArchiveOutBinary` (translated from `ChArchiveBinary.h`) -/

namespace ChArchiveOutBinary

/-- `ChArchiveOutBinary::out` for every primitive overload: forwards the
value to the stream insertion operator. -/
def out (s : WState) (v : PrimVal) : WState := emit s (streamWrite v)

/-- `ChArchiveOutBinary::out_array_pre`: writes the element count. -/
def out_array_pre (s : WState) (_name : List Nat) (msize : Nat)
    (_classname : List Nat) : WState := emit s (wBytes 8 msize)

/-- `ChArchiveOutBinary::out_array_between`: empty body. -/
def out_array_between (s : WState) (_msize : Nat) (_classname : List Nat) : WState := s

/-- `ChArchiveOutBinary::out_array_end`: empty body. -/
def out_array_end (s : WState) (_msize : Nat) (_classname : List Nat) : WState := s

/-- `ChArchiveOutBinary::out` for custom C++ objects: delegates to the
object's `CallArchiveOut` callback, ignoring name, classname, tracking
flag and ID. -/
def out_custom (fieldCb : WState → Option WState) (_classname : List Nat)
    (_tracked : Bool) (_obj_ID : Nat) (s : WState) : Option WState := fieldCb s

/-- `ChArchiveOutBinary::out_ref_polimorphic`: if the object was not
already inserted, write its class name as a string, then run its
constructor-argument writer (`CallArchiveOutConstructor`) and its field
writer (`CallArchiveOut`); otherwise write the sentinel string "oID"
followed by the object's registry ID, and nothing else. -/
def out_ref_polimorphic (ctorCb fieldCb : WState → Option WState)
    (already_inserted : Bool) (obj_ID : Nat) (classname : List Nat)
    (s : WState) : Option WState :=
  if !already_inserted then
    (ctorCb (emit s (wStr classname))).bind fieldCb
  else
    some (emit (emit s (wStr oID)) (wBytes 8 obj_ID))

/-- `ChArchiveOutBinary::out_ref`: same branch structure as
`out_ref_polimorphic`, but the fresh-object branch writes the empty
string (not usable for the class factory). -/
def out_ref (ctorCb fieldCb : WState → Option WState)
    (already_inserted : Bool) (obj_ID : Nat) (_classname : List Nat)
    (s : WState) : Option WState :=
  if !already_inserted then
    (ctorCb (emit s (wStr []))).bind fieldCb
  else
    some (emit (emit s (wStr oID)) (wBytes 8 obj_ID))

end ChArchiveOutBinary

/-! ## `ChArchiveInBinary` (translated from `ChArchiveBinary.h`) -/

namespace ChArchiveInBinary

/-- `ChArchiveInBinary::in` for every primitive overload (named `inVal`
because `in` is reserved in Lean): extracts one value of the statically
requested kind from the stream. -/
def inVal (k : PrimKind) (s : RState) : RRes PrimVal :=
  match streamRead k s.inp with
  | none => .error (.streamEnd, s)
  | some (v, rest) => .ok (v, { s with inp := rest })

/-- `ChArchiveInBinary::in_array_pre`: reads the element count written by
the peer and reports it to the caller. -/
def in_array_pre (_name : List Nat) (s : RState) : RRes Nat :=
  match rBytes 8 s.inp with
  | none => .error (.streamEnd, s)
  | some (n, rest) => .ok (n, { s with inp := rest })

/-- `ChArchiveInBinary::in_array_between`: empty body. -/
def in_array_between (_name : List Nat) (s : RState) : RState := s

/-- `ChArchiveInBinary::in_array_end`: empty body. -/
def in_array_end (_name : List Nat) (s : RState) : RState := s

/-- The flag bit of `ChNameValue` marking identity-tracked fields.
Modelled from the spec (`NVP_TRACK_OBJECT` is defined in `ChArchive.h`,
not in the sources); only its role as a bitmask matters. -/
def NVP_TRACK_OBJECT : Nat := 1

/-- `ChArchiveInBinary::in` for custom C++ objects (named `inCustom`
because `in` is reserved in Lean): if the field's flags contain
`NVP_TRACK_OBJECT`, register the object's raw identity (`CallGetRawPtr`)
via `PutPointer` first, then delegate to its `CallArchiveIn` field
reader. -/
def inCustom (flags : Nat) (rawPtr : Nat) (fieldCb : RState → RRes Unit)
    (s : RState) : RRes Unit :=
  let s1 := if flags &&& NVP_TRACK_OBJECT ≠ 0 then
      { s with reg := (PutPointer s.reg rawPtr).2.2 }
    else s
  fieldCb s1

/-- `ChArchiveInBinary::in_ref_polimorphic`: read the leading string; if
it is not "oID", run the constructor callback
(`CallArchiveInConstructor`, which may consume constructor-argument
bytes and yields the raw pointer, `none` when the class factory cannot
create the class), register the new instance via `PutPointer`, then run
its field reader; on a null pointer throw the construction error naming
the class. If the leading string is "oID", read the trailing ID and
resolve it in the registry (`objects_pointers[obj_ID]`; out-of-range
resolution modelled from the spec as a dangling-reference error). -/
def in_ref_polimorphic (ctorCb : List Nat → RState → RRes (Option Nat))
    (fieldCb : Nat → RState → RRes Unit) (s : RState) : RRes Nat :=
  match rStr s.inp with
  | none => .error (.streamEnd, s)
  | some (cls_name, rest) =>
    let s1 : RState := { s with inp := rest }
    if cls_name ≠ oID then
      match ctorCb cls_name s1 with
      | .error e => .error e
      | .ok (ptr?, s2) =>
        match ptr? with
        | some p =>
          let s3 : RState := { s2 with reg := (PutPointer s2.reg p).2.2 }
          match fieldCb p s3 with
          | .error e => .error e
          | .ok (_, s4) => .ok (p, s4)
        | none => .error (.ctorFailPoly cls_name, s2)
    else
      match rBytes 8 s1.inp with
      | none => .error (.streamEnd, s1)
      | some (obj_ID, rest2) =>
        let s2 : RState := { s1 with inp := rest2 }
        match s2.reg.get? obj_ID with
        | some p => .ok (p, s2)
        | none => .error (.danglingRef obj_ID, s2)

/-- `ChArchiveInBinary::in_ref`: same state machine as
`in_ref_polimorphic` (the constructor callback stands for the
statically-typed construction path), except the construction error does
not name a class. -/
def in_ref (ctorCb : List Nat → RState → RRes (Option Nat))
    (fieldCb : Nat → RState → RRes Unit) (s : RState) : RRes Nat :=
  match rStr s.inp with
  | none => .error (.streamEnd, s)
  | some (cls_name, rest) =>
    let s1 : RState := { s with inp := rest }
    if cls_name ≠ oID then
      match ctorCb cls_name s1 with
      | .error e => .error e
      | .ok (ptr?, s2) =>
        match ptr? with
        | some p =>
          let s3 : RState := { s2 with reg := (PutPointer s2.reg p).2.2 }
          match fieldCb p s3 with
          | .error e => .error e
          | .ok (_, s4) => .ok (p, s4)
        | none => .error (.ctorFailPlain, s2)
    else
      match rBytes 8 s1.inp with
      | none => .error (.streamEnd, s1)
      | some (obj_ID, rest2) =>
        let s2 : RState := { s1 with inp := rest2 }
        match s2.reg.get? obj_ID with
        | some p => .ok (p, s2)
        | none => .error (.danglingRef obj_ID, s2)

end ChArchiveInBinary

/-- A write callback that appends a fixed byte payload, standing for a
`CallArchiveOutConstructor` / `CallArchiveOut` invocation whose own
output is the given bytes. -/
def appendCb (bs : List Nat) : WState → Option WState := fun s => some (emit s bs)

/-! ## Object-graph traversal

The archive methods receive their payloads through the `ChFunctorArchive`
callbacks of the objects being serialized. To state whole-graph
round-trip properties, the caller-side traversal (the pointer-handling
templates of `ChArchiveOut`/`ChArchiveIn` in `ChArchive.h`, not in the
sources) is modelled from the spec: the writer queries `PutPointer`
before each pointer field and passes the outcome to
`out_ref_polimorphic` (spec §4.1/§4.3), the reader constructs instances
through a class-name-keyed factory and fills their fields recursively
(spec §4.2). -/

/-- Shape of a field as known statically to a class's archive callbacks. -/
inductive FieldKind : Type
  | fPrim (k : PrimKind)
  | fRef
  deriving DecidableEq, Repr

/-- What the Class Factory knows about a registered class: the kinds of
its constructor-argument primitives and the shapes of its fields. -/
structure ClassDesc where
  ctorKinds : List PrimKind
  fieldKinds : List FieldKind
  deriving DecidableEq, Repr

/-- Bytes produced by `CallArchiveOutConstructor`: the object's
constructor-argument primitives in order. -/
def writeCtorArgs : List PrimVal → List Nat
  | [] => []
  | v :: vs => streamWrite v ++ writeCtorArgs vs

/-- Modelled from the spec: `CallArchiveOut` of an object writes its
fields in order; each primitive goes through `ChArchiveOutBinary::out`,
each pointer field through the given pointer writer. -/
def writeFields (wr : Nat → WState → Option WState) :
    List FieldVal → WState → Option WState
  | [], s => some s
  | .fvPrim v :: fs, s => writeFields wr fs (ChArchiveOutBinary.out s v)
  | .fvRef a :: fs, s => (wr a s).bind (writeFields wr fs)

/-- Modelled from the spec: caller-side write of one polymorphic pointer
field — query `PutPointer` for the target's identity, then invoke
`ChArchiveOutBinary::out_ref_polimorphic` with the outcome; the object's
callbacks write its constructor arguments and recursively its fields.
`fuel` bounds the recursion depth (the registry makes real traversals
terminate; fuel only totalizes the model). -/
def writeRefP (heap : List Obj) : Nat → Nat → WState → Option WState
  | 0, _, _ => none
  | fuel + 1, a, s =>
    match heap[a]? with
    | none => none
    | some o =>
      match PutPointer s.reg a with
      | (already, id, reg1) =>
        ChArchiveOutBinary.out_ref_polimorphic
          (appendCb (writeCtorArgs o.ctorArgs))
          (fun s => writeFields (fun a s => writeRefP heap fuel a s) o.fields s)
          already id o.cls { s with reg := reg1 }

/-- Read a list of primitives of the given kinds. -/
def readPrims : List PrimKind → RState → RRes (List PrimVal)
  | [], s => .ok ([], s)
  | k :: ks, s =>
    match ChArchiveInBinary.inVal k s with
    | .error e => .error e
    | .ok (v, s1) =>
      match readPrims ks s1 with
      | .error e => .error e
      | .ok (vs, s2) => .ok (v :: vs, s2)

/-- Modelled from the spec: `CallArchiveInConstructor` with a class name —
consult the Class Factory; an unregistered name yields a null raw
pointer, otherwise the constructor-argument primitives are read and a
fresh instance is materialized at the next heap address (its fields
still unread). -/
def readCtor (factory : List Nat → Option ClassDesc) (cls : List Nat)
    (s : RState) : RRes (Option Nat) :=
  match factory cls with
  | none => .ok (none, s)
  | some d =>
    match readPrims d.ctorKinds s with
    | .error e => .error e
    | .ok (vs, s1) =>
      .ok (some s1.heap.length,
        { s1 with heap := s1.heap ++ [{ cls := cls, ctorArgs := vs, fields := [] }] })

/-- Read the field values of one object, given its statically known field
shapes; pointer fields go through the given pointer reader. -/
def readFieldVals (rr : RState → RRes Nat) :
    List FieldKind → RState → RRes (List FieldVal)
  | [], s => .ok ([], s)
  | .fPrim k :: ks, s =>
    match ChArchiveInBinary.inVal k s with
    | .error e => .error e
    | .ok (v, s1) =>
      match readFieldVals rr ks s1 with
      | .error e => .error e
      | .ok (vs, s2) => .ok (.fvPrim v :: vs, s2)
  | .fRef :: ks, s =>
    match rr s with
    | .error e => .error e
    | .ok (a, s1) =>
      match readFieldVals rr ks s1 with
      | .error e => .error e
      | .ok (vs, s2) => .ok (.fvRef a :: vs, s2)

/-- Modelled from the spec: `CallArchiveIn` of a freshly constructed
instance — read its fields (per its class's statically known shapes) and
store them into the instance. The `.stuck` branches are unreachable for
instances this traversal itself constructed. -/
def readFieldsOf (factory : List Nat → Option ClassDesc) (rr : RState → RRes Nat)
    (p : Nat) (s : RState) : RRes Unit :=
  match s.heap[p]? with
  | none => .error (.stuck, s)
  | some o =>
    match factory o.cls with
    | none => .error (.stuck, s)
    | some d =>
      match readFieldVals rr d.fieldKinds s with
      | .error e => .error e
      | .ok (vs, s1) =>
        .ok ((), { s1 with heap := s1.heap.set p { o with fields := vs } })

/-- Modelled from the spec: caller-side read of one polymorphic pointer
field — `ChArchiveInBinary::in_ref_polimorphic` driven by the factory
constructor callback and the recursive field reader. -/
def readRefP (factory : List Nat → Option ClassDesc) : Nat → RState → RRes Nat
  | 0, s => .error (.stuck, s)
  | fuel + 1, s =>
    ChArchiveInBinary.in_ref_polimorphic
      (readCtor factory)
      (fun p s => readFieldsOf factory (readRefP factory fuel) p s)
      s

/-- A field value is admissible for a field shape: primitives match the
declared kind and are representable; references point into the heap. -/
def fieldOk (hl : Nat) : FieldVal → FieldKind → Bool
  | .fvPrim v, .fPrim k => decide (v.kind = k) && v.wfb
  | .fvRef a, .fRef => decide (a < hl)
  | _, _ => false

/-- Pointwise admissibility of a field list against its declared shapes. -/
def fieldsOk (hl : Nat) : List FieldVal → List FieldKind → Bool
  | [], [] => true
  | f :: fs, k :: ks => fieldOk hl f k && fieldsOk hl fs ks
  | _, _ => false

/-- An object is well-formed for a factory and heap size: its class name
is a registered non-sentinel byte string whose description matches the
object's constructor arguments and field shapes. -/
def objWF (factory : List Nat → Option ClassDesc) (hl : Nat) (o : Obj) : Bool :=
  decide (o.cls ≠ oID) && decide (o.cls.length < 2 ^ 64) &&
  o.cls.all (fun b => decide (b < 256)) &&
  (match factory o.cls with
   | none => false
   | some d =>
     decide (o.ctorArgs.map PrimVal.kind = d.ctorKinds) &&
     o.ctorArgs.all PrimVal.wfb &&
     fieldsOk hl o.fields d.fieldKinds)

/-- A well-formed object graph: every object is well-formed and the
address space is small enough for 64-bit IDs. -/
def heapWF (factory : List Nat → Option ClassDesc) (heap : List Obj) : Bool :=
  decide (heap.length < 2 ^ 64) && heap.all (objWF factory heap.length)

/-- Correspondence of one written field with its reconstruction: equal
primitives; a reference corresponds to the reader-side address filed in
the write registry for its target. -/
def fieldCorr (wreg : List Nat) : FieldVal → FieldVal → Prop
  | .fvPrim v, .fvPrim v' => v = v'
  | .fvRef a, .fvRef b => regLookup wreg a = some b
  | _, _ => False

/-- Pointwise correspondence of written fields with reconstructed ones. -/
def fieldsCorr (wreg : List Nat) : List FieldVal → List FieldVal → Prop
  | [], [] => True
  | f :: fs, f' :: fs' => fieldCorr wreg f f' ∧ fieldsCorr wreg fs fs'
  | _, _ => False

/-- Simulation invariant between the writer session (registry `wreg` over
the source graph `heap`) and the reader state `r`. `P` marks the pending
registry indices: objects registered but whose field write is still in
progress (ancestors on the traversal stack), exempt from the field
correspondence clause. -/
structure Sim (factory : List Nat → Option ClassDesc) (heap : List Obj)
    (wreg : List Nat) (P : Nat → Prop) (r : RState) : Prop where
  regsEq : r.reg = List.range wreg.length
  heapLen : r.heap.length = wreg.length
  nodup : wreg.Nodup
  inHeap : ∀ a ∈ wreg, a < heap.length
  objCorr : ∀ k a o o', wreg[k]? = some a → heap[a]? = some o → r.heap[k]? = some o' →
    o'.cls = o.cls ∧ o'.ctorArgs = o.ctorArgs ∧
      (¬ P k → fieldsCorr wreg o.fields o'.fields)

/-! ## Fixtures and auxiliary predicates -/

/-- Two read results are equal up to the text of a construction exception:
either both are the same value, or both are construction errors thrown at
the same state, the first with the class-naming message of
`in_ref_polimorphic`, the second with the plain message of `in_ref`. -/
def sameUpToCtorMsg (a b : RRes Nat) : Prop :=
  match a, b with
  | .error (.ctorFailPoly _, s1), .error (.ctorFailPlain, s2) => s1 = s2
  | x, y => x = y

/-- A constructor callback standing for a class factory that cannot create
any class: it consumes nothing and yields a null raw pointer. -/
def ctorCbNull : List Nat → RState → RRes (Option Nat) := fun _ s => .ok (none, s)

/-- A field-read callback that does nothing. -/
def fieldCbId : Nat → RState → RRes Unit := fun _ s => .ok ((), s)

/-- A custom-object field-read callback that does nothing. -/
def customCbId : RState → RRes Unit := fun s => .ok ((), s)

/-- Writer-state extension: a write only appends to the stream and to the
registry. -/
def WExt (s s' : WState) : Prop :=
  (∃ δ, s'.out = s.out ++ δ) ∧ (∃ ρ, s'.reg = s.reg ++ ρ)

/-- The simulation contract between a pointer writer and a pointer
reader: whenever the writer succeeds, emitting `δ`, the reader consumes
exactly `δ`, returns the reader-side address filed in the write registry
for the written target, and re-establishes the simulation invariant. -/
def WRSim (factory : List Nat → Option ClassDesc) (heap : List Obj)
    (wr : Nat → WState → Option WState) (rr : RState → RRes Nat) : Prop :=
  ∀ a s s' δ, wr a s = some s' → s'.out = s.out ++ δ →
    ∀ P r rest, Sim factory heap s.reg P r → r.inp = δ ++ rest →
      ∃ p r', rr r = .ok (p, r') ∧ regLookup s'.reg a = some p ∧
        r'.inp = rest ∧ Sim factory heap s'.reg P r'

/-- Class factory of the concrete diamond graph: a root class `[82]` with
two pointer fields, a child class `[67]` with one, and a shared class
`[83]` with one `unsigned long long` constructor argument and one `int`
field. -/
def demoFactory : List Nat → Option ClassDesc := fun cls =>
  if cls = [82] then some ⟨[], [.fRef, .fRef]⟩
  else if cls = [67] then some ⟨[], [.fRef]⟩
  else if cls = [83] then some ⟨[.kULongLong], [.fPrim .kInt]⟩
  else none

/-- The diamond graph of spec §8: `root -> {childA, childB}`, and both
children reference the shared object 3. -/
def demoHeap : List Obj :=
  [⟨[82], [], [.fvRef 1, .fvRef 2]⟩,
   ⟨[67], [], [.fvRef 3]⟩,
   ⟨[67], [], [.fvRef 3]⟩,
   ⟨[83], [.vULongLong 7], [.fvPrim (.vInt (-5))]⟩]

/-- The serialized form of the demo diamond graph. -/
def demoOut : WState := (writeRefP demoHeap 5 0 ⟨[], []⟩).getD ⟨[], []⟩

/-- A factory whose only registered class is literally named "oID"
(exercising the reserved-token collision of claim C6). -/
def oidFactory : List Nat → Option ClassDesc := fun cls =>
  if cls = oID then some ⟨[.kULongLong], []⟩ else none

/-- A one-object graph whose object's class is literally named "oID". -/
def oidHeap : List Obj := [⟨oID, [.vULongLong 5], []⟩]

/-- The serialized form of the "oID"-named object. -/
def oidOut : WState := (writeRefP oidHeap 2 0 ⟨[], []⟩).getD ⟨[], []⟩

/-- The "oID"-named one-object graph with constructor argument `m`. -/
def oidHeapW (m : Nat) : List Obj := [⟨oID, [.vULongLong m], []⟩]

/-! ## Stream round-trip lemmas -/

theorem wBytes_length (w v : Nat) : (wBytes w v).length = w := by
  induction w generalizing v with
  | zero => rfl
  | succ w ih => simp [wBytes, ih]

theorem rBytes_of_wBytes (w v : Nat) (rest : List Nat) :
    rBytes w (wBytes w v ++ rest) = some (v % 256 ^ w, rest) := by
  induction w generalizing v with
  | zero => simp [wBytes, rBytes, Nat.mod_one]
  | succ w ih =>
    simp only [wBytes, List.cons_append, rBytes, List.append_eq, ih, Option.map]
    have h1 : (256 : Nat) ^ (w + 1) = 256 * 256 ^ w := by ring
    rw [h1, Nat.mod_mul]

theorem rBytes_of_wBytes_lt {w v : Nat} (h : v < 256 ^ w) (rest : List Nat) :
    rBytes w (wBytes w v ++ rest) = some (v, rest) := by
  rw [rBytes_of_wBytes, Nat.mod_eq_of_lt h]

theorem rStr_of_wStr {s : List Nat} (h : s.length < 2 ^ 64) (rest : List Nat) :
    rStr (wStr s ++ rest) = some (s, rest) := by
  have h256 : s.length < 256 ^ 8 := by
    simpa [show (256 : Nat) ^ 8 = 2 ^ 64 by norm_num] using h
  simp only [wStr, List.append_assoc, rStr, rBytes_of_wBytes_lt h256]
  rw [if_pos (by simp)]
  simp

theorem intDec_intEnc {i : Int} (h1 : -(2 ^ 31) ≤ i) (h2 : i < 2 ^ 31) :
    intDec (intEnc i) = i := by
  have h32 : ((2 : Int) ^ 32) = 4294967296 := by norm_num
  unfold intDec intEnc
  rw [h32]
  split <;> omega

theorem intEnc_lt (i : Int) : intEnc i < 2 ^ 32 := by
  have h32 : ((2 : Int) ^ 32) = 4294967296 := by norm_num
  unfold intEnc
  rw [h32]
  omega

theorem streamRead_streamWrite {v : PrimVal} (h : v.wfb = true) (rest : List Nat) :
    streamRead v.kind (streamWrite v ++ rest) = some (v, rest) := by
  cases v with
  | vBool b =>
    cases b <;> simp [streamWrite, PrimVal.kind, streamRead]
  | vInt i =>
    simp only [PrimVal.wfb, decide_eq_true_eq] at h
    have henc : intEnc i < 256 ^ 4 := by
      simpa [show (256 : Nat) ^ 4 = 2 ^ 32 by norm_num] using intEnc_lt i
    simp [streamWrite, PrimVal.kind, streamRead, rBytes_of_wBytes_lt henc,
      intDec_intEnc h.1 h.2]
  | vDouble bits =>
    simp only [PrimVal.wfb, decide_eq_true_eq] at h
    have hb : bits < 256 ^ 8 := by
      simpa [show (256 : Nat) ^ 8 = 2 ^ 64 by norm_num] using h
    simp [streamWrite, PrimVal.kind, streamRead, rBytes_of_wBytes_lt hb]
  | vFloat bits =>
    simp only [PrimVal.wfb, decide_eq_true_eq] at h
    have hb : bits < 256 ^ 4 := by
      simpa [show (256 : Nat) ^ 4 = 2 ^ 32 by norm_num] using h
    simp [streamWrite, PrimVal.kind, streamRead, rBytes_of_wBytes_lt hb]
  | vChar c =>
    simp only [PrimVal.wfb, decide_eq_true_eq] at h
    simp [streamWrite, PrimVal.kind, streamRead, Nat.mod_eq_of_lt h]
  | vUInt n =>
    simp only [PrimVal.wfb, decide_eq_true_eq] at h
    have hb : n < 256 ^ 4 := by
      simpa [show (256 : Nat) ^ 4 = 2 ^ 32 by norm_num] using h
    simp [streamWrite, PrimVal.kind, streamRead, rBytes_of_wBytes_lt hb]
  | vString s =>
    simp only [PrimVal.wfb, decide_eq_true_eq] at h
    simp [streamWrite, PrimVal.kind, streamRead, rStr_of_wStr h.1]
  | vULong n =>
    simp only [PrimVal.wfb, decide_eq_true_eq] at h
    have hb : n < 256 ^ 8 := by
      simpa [show (256 : Nat) ^ 8 = 2 ^ 64 by norm_num] using h
    simp [streamWrite, PrimVal.kind, streamRead, rBytes_of_wBytes_lt hb]
  | vULongLong n =>
    simp only [PrimVal.wfb, decide_eq_true_eq] at h
    have hb : n < 256 ^ 8 := by
      simpa [show (256 : Nat) ^ 8 = 2 ^ 64 by norm_num] using h
    simp [streamWrite, PrimVal.kind, streamRead, rBytes_of_wBytes_lt hb]

theorem oID_length_lt : oID.length < 2 ^ 64 := by norm_num [oID]

theorem rBytes8_of_wBytes8 {n : Nat} (h : n < 2 ^ 64) (rest : List Nat) :
    rBytes 8 (wBytes 8 n ++ rest) = some (n, rest) :=
  rBytes_of_wBytes_lt (by simpa [show (256 : Nat) ^ 8 = 2 ^ 64 by norm_num] using h) rest

/-! ## Registry and correspondence lemmas -/

theorem regLookup_some_lt {l : List Nat} {p i : Nat} (h : regLookup l p = some i) :
    i < l.length := by
  induction l generalizing i with
  | nil => simp [regLookup] at h
  | cons a l ih =>
    by_cases hap : a = p
    · simp [regLookup, hap] at h
      simp only [List.length_cons]
      omega
    · simp [regLookup, hap] at h
      obtain ⟨j, hj, rfl⟩ := h
      have := ih hj
      simp only [List.length_cons]
      omega

theorem regLookup_some_getElem {l : List Nat} {p i : Nat} (h : regLookup l p = some i) :
    l[i]? = some p := by
  induction l generalizing i with
  | nil => simp [regLookup] at h
  | cons a l ih =>
    by_cases hap : a = p
    · simp [regLookup, hap] at h
      subst h
      simpa using hap
    · simp [regLookup, hap] at h
      obtain ⟨j, hj, rfl⟩ := h
      simpa using ih hj

theorem regLookup_append_some {l : List Nat} {p i : Nat} (h : regLookup l p = some i)
    (l₂ : List Nat) : regLookup (l ++ l₂) p = some i := by
  induction l generalizing i with
  | nil => simp [regLookup] at h
  | cons a l ih =>
    by_cases hap : a = p
    · simp [regLookup, hap] at h ⊢
      exact h
    · simp [regLookup, hap] at h ⊢
      obtain ⟨j, hj, rfl⟩ := h
      exact ⟨j, ih hj, rfl⟩

theorem regLookup_none_not_mem {l : List Nat} {p : Nat} (h : regLookup l p = none) :
    p ∉ l := by
  induction l with
  | nil => simp
  | cons a l ih =>
    by_cases hap : a = p
    · simp [regLookup, hap] at h
    · simp [regLookup, hap] at h
      simp [ih h, Ne.symm hap]

theorem regLookup_eq_none {l : List Nat} {p : Nat} (h : ∀ x ∈ l, x ≠ p) :
    regLookup l p = none := by
  induction l with
  | nil => rfl
  | cons a l ih =>
    have ha : a ≠ p := h a (by simp)
    simp [regLookup, ha, ih (fun x hx => h x (by simp [hx]))]

theorem regLookup_append_self {l : List Nat} {p : Nat} (h : regLookup l p = none) :
    regLookup (l ++ [p]) p = some l.length := by
  induction l with
  | nil => simp [regLookup]
  | cons a l ih =>
    by_cases hap : a = p
    · simp [regLookup, hap] at h
    · simp [regLookup, hap] at h ⊢
      simp [ih h]

theorem regLookup_range (n : Nat) : regLookup (List.range n) n = none :=
  regLookup_eq_none (fun x hx => by
    have := List.mem_range.1 hx
    omega)

theorem fieldCorr_mono {w w' : List Nat} {f f' : FieldVal}
    (hmono : ∀ a b, regLookup w a = some b → regLookup w' a = some b)
    (h : fieldCorr w f f') : fieldCorr w' f f' := by
  cases f <;> cases f' <;> simp [fieldCorr] at h ⊢
  · exact h
  · exact hmono _ _ h

theorem fieldsCorr_mono {w w' : List Nat} {fs fs' : List FieldVal}
    (hmono : ∀ a b, regLookup w a = some b → regLookup w' a = some b)
    (h : fieldsCorr w fs fs') : fieldsCorr w' fs fs' := by
  induction fs generalizing fs' with
  | nil =>
    cases fs' with
    | nil => exact trivial
    | cons f' fs' => exact h.elim
  | cons f fs ih =>
    cases fs' with
    | nil => simp [fieldsCorr] at h
    | cons f' fs' =>
      obtain ⟨h1, h2⟩ := h
      exact ⟨fieldCorr_mono hmono h1, ih h2⟩

theorem fieldsCorr_getElem {w : List Nat} {fs fs' : List FieldVal} {i b : Nat}
    (h : fieldsCorr w fs fs') (hi : fs[i]? = some (.fvRef b)) :
    ∃ c, fs'[i]? = some (.fvRef c) ∧ regLookup w b = some c := by
  induction fs generalizing fs' i with
  | nil => simp at hi
  | cons f fs ih =>
    cases fs' with
    | nil => simp [fieldsCorr] at h
    | cons f' fs' =>
      obtain ⟨h1, h2⟩ := h
      cases i with
      | zero =>
        simp at hi
        subst hi
        cases f' with
        | fvPrim v => simp [fieldCorr] at h1
        | fvRef c => exact ⟨c, by simp, h1⟩
      | succ i =>
        simp at hi
        obtain ⟨c, hc1, hc2⟩ := ih h2 (by simpa using hi)
        exact ⟨c, by simpa using hc1, hc2⟩

theorem nodup_lt_length_le {l : List Nat} {n : Nat} (hnd : l.Nodup)
    (hlt : ∀ x ∈ l, x < n) : l.length ≤ n := by
  classical
  have h1 : l.toFinset.card = l.length := List.toFinset_card_of_nodup hnd
  have h2 : l.toFinset ⊆ Finset.range n := by
    intro x hx
    exact Finset.mem_range.2 (hlt x (List.mem_toFinset.1 hx))
  have h3 := Finset.card_le_card h2
  simpa [h1, Finset.card_range] using h3

theorem readPrims_writeCtorArgs :
    ∀ (vs : List PrimVal), vs.all PrimVal.wfb = true →
    ∀ (s : RState) (rest : List Nat), s.inp = writeCtorArgs vs ++ rest →
    readPrims (vs.map PrimVal.kind) s = .ok (vs, { s with inp := rest }) := by
  intro vs
  induction vs with
  | nil =>
    intro _ s rest hs
    have hs' : s.inp = rest := by simpa [writeCtorArgs] using hs
    simp [readPrims, ← hs']
  | cons v vs ih =>
    intro hwf s rest hs
    simp only [List.all_cons, Bool.and_eq_true] at hwf
    have hs' : s.inp = streamWrite v ++ (writeCtorArgs vs ++ rest) := by
      simpa [writeCtorArgs, List.append_assoc] using hs
    have hread : streamRead v.kind s.inp = some (v, writeCtorArgs vs ++ rest) := by
      rw [hs']
      exact streamRead_streamWrite hwf.1 _
    simp only [List.map_cons, readPrims, ChArchiveInBinary.inVal, hread]
    rw [ih hwf.2 { s with inp := writeCtorArgs vs ++ rest } rest rfl]

/-! ## Writer extension lemmas -/

theorem wext_refl (s : WState) : WExt s s :=
  ⟨⟨[], by simp⟩, ⟨[], by simp⟩⟩

theorem wext_trans {s1 s2 s3 : WState} (h1 : WExt s1 s2) (h2 : WExt s2 s3) :
    WExt s1 s3 := by
  obtain ⟨⟨d1, hd1⟩, ⟨r1, hr1⟩⟩ := h1
  obtain ⟨⟨d2, hd2⟩, ⟨r2, hr2⟩⟩ := h2
  exact ⟨⟨d1 ++ d2, by simp [hd2, hd1, List.append_assoc]⟩,
         ⟨r1 ++ r2, by simp [hr2, hr1, List.append_assoc]⟩⟩

theorem writeFields_wext {wr : Nat → WState → Option WState}
    (hwr : ∀ a s s', wr a s = some s' → WExt s s') :
    ∀ (fl : List FieldVal) (s s' : WState), writeFields wr fl s = some s' → WExt s s' := by
  intro fl
  induction fl with
  | nil =>
    intro s s' h
    simp [writeFields] at h
    subst h
    exact wext_refl s
  | cons f fs ih =>
    intro s s' h
    cases f with
    | fvPrim v =>
      simp only [writeFields] at h
      exact wext_trans ⟨⟨streamWrite v, rfl⟩, ⟨[], by simp [ChArchiveOutBinary.out, emit]⟩⟩
        (ih _ _ h)
    | fvRef a =>
      simp only [writeFields] at h
      cases hw1 : wr a s with
      | none => rw [hw1] at h; simp at h
      | some s1 =>
        rw [hw1] at h
        simp only [Option.bind] at h
        exact wext_trans (hwr _ _ _ hw1) (ih _ _ h)

theorem writeRefP_wext (heap : List Obj) :
    ∀ (fuel a : Nat) (s s' : WState), writeRefP heap fuel a s = some s' → WExt s s' := by
  intro fuel
  induction fuel with
  | zero => intro a s s' h; simp [writeRefP] at h
  | succ fuel ih =>
    intro a s s' h
    simp only [writeRefP] at h
    cases hh : heap[a]? with
    | none => rw [hh] at h; simp at h
    | some o =>
      rw [hh] at h
      cases hrl : regLookup s.reg a with
      | some i =>
        have hpp : PutPointer s.reg a = (true, i, s.reg) := by simp [PutPointer, hrl]
        rw [hpp] at h
        simp [ChArchiveOutBinary.out_ref_polimorphic, emit] at h
        subst h
        exact ⟨⟨wStr oID ++ wBytes 8 i, by simp [List.append_assoc]⟩, ⟨[], by simp⟩⟩
      | none =>
        have hpp : PutPointer s.reg a = (false, s.reg.length, s.reg ++ [a]) := by
          simp [PutPointer, hrl]
        rw [hpp] at h
        simp only [ChArchiveOutBinary.out_ref_polimorphic, Bool.not_false, if_pos,
          appendCb, Option.bind_some] at h
        exact wext_trans
          ⟨⟨wStr o.cls ++ writeCtorArgs o.ctorArgs, by simp [emit, List.append_assoc]⟩,
           ⟨[a], rfl⟩⟩
          (writeFields_wext ih o.fields _ _ h)

/-- The simulation invariant does not constrain the unread input. -/
theorem sim_set_inp {factory : List Nat → Option ClassDesc} {heap : List Obj}
    {wreg : List Nat} {P : Nat → Prop} {r : RState}
    (h : Sim factory heap wreg P r) (x : List Nat) :
    Sim factory heap wreg P { r with inp := x } :=
  ⟨h.regsEq, h.heapLen, h.nodup, h.inHeap, h.objCorr⟩

/-- Field-list simulation: reading back the bytes a field-list write
emitted reproduces, under any pointer writer/reader pair satisfying the
`WRSim` contract, corresponding field values and re-establishes the
simulation invariant. -/
theorem simFields (factory : List Nat → Option ClassDesc) (heap : List Obj)
    (wr : Nat → WState → Option WState) (rr : RState → RRes Nat)
    (hwr : ∀ a s s', wr a s = some s' → WExt s s')
    (hrec : WRSim factory heap wr rr) :
    ∀ (fl : List FieldVal) (ks : List FieldKind) (s s' : WState) (δ : List Nat),
      writeFields wr fl s = some s' → s'.out = s.out ++ δ →
      fieldsOk heap.length fl ks = true →
      ∀ (P : Nat → Prop) (r : RState) (rest : List Nat),
        Sim factory heap s.reg P r → r.inp = δ ++ rest →
        ∃ vs r', readFieldVals rr ks r = .ok (vs, r') ∧ r'.inp = rest ∧
          Sim factory heap s'.reg P r' ∧ fieldsCorr s'.reg fl vs := by
  intro fl
  induction fl with
  | nil =>
    intro ks s s' δ hw hδ hok P r rest hsim hinp
    cases ks with
    | cons k ks => simp [fieldsOk] at hok
    | nil =>
      simp only [writeFields, Option.some.injEq] at hw
      subst hw
      have hδ0 : δ = [] := by
        have hl := congrArg List.length hδ
        simp at hl
        exact hl
      subst hδ0
      exact ⟨[], r, by simp [readFieldVals], by simpa using hinp, hsim, trivial⟩
  | cons f fs ih =>
    intro ks s s' δ hw hδ hok P r rest hsim hinp
    cases ks with
    | nil => cases f <;> simp [fieldsOk] at hok
    | cons k ks =>
      simp only [fieldsOk, Bool.and_eq_true] at hok
      obtain ⟨hok1, hok2⟩ := hok
      cases f with
      | fvPrim v =>
        cases k with
        | fRef => simp [fieldOk] at hok1
        | fPrim pk =>
          have hkv : v.kind = pk ∧ v.wfb = true := by
            simpa [fieldOk, Bool.and_eq_true, decide_eq_true_eq] using hok1
          obtain ⟨hk1, hk2⟩ := hkv
          subst hk1
          simp only [writeFields] at hw
          obtain ⟨⟨δf, hδf⟩, -⟩ := writeFields_wext hwr fs _ _ hw
          have hout : (ChArchiveOutBinary.out s v).out = s.out ++ streamWrite v := rfl
          have hδeq : δ = streamWrite v ++ δf := by
            have h1 : s.out ++ δ = s.out ++ (streamWrite v ++ δf) := by
              rw [← hδ, hδf, hout, List.append_assoc]
            exact List.append_cancel_left h1
          have hread : streamRead v.kind r.inp = some (v, δf ++ rest) := by
            rw [hinp, hδeq, List.append_assoc]
            exact streamRead_streamWrite hk2 _
          obtain ⟨vs, r', hq1, hq2, hq3, hq4⟩ :=
            ih ks (ChArchiveOutBinary.out s v) s' δf hw hδf hok2 P
              { r with inp := δf ++ rest } rest (sim_set_inp hsim _) rfl
          refine ⟨.fvPrim v :: vs, r', ?_, hq2, hq3, ?_, hq4⟩
          · simp [readFieldVals, ChArchiveInBinary.inVal, hread, hq1]
          · show v = v
            rfl
      | fvRef a =>
        cases k with
        | fPrim pk => simp [fieldOk] at hok1
        | fRef =>
          simp only [writeFields] at hw
          cases hw1 : wr a s with
          | none => rw [hw1] at hw; simp at hw
          | some s1 =>
            rw [hw1] at hw
            simp only [Option.bind] at hw
            obtain ⟨⟨δ1, hδ1⟩, ⟨ρ1, hρ1⟩⟩ := hwr _ _ _ hw1
            obtain ⟨⟨δ2, hδ2⟩, ⟨ρ2, hρ2⟩⟩ := writeFields_wext hwr fs _ _ hw
            have hδeq : δ = δ1 ++ δ2 := by
              have h1 : s.out ++ δ = s.out ++ (δ1 ++ δ2) := by
                rw [← hδ, hδ2, hδ1, List.append_assoc]
              exact List.append_cancel_left h1
            obtain ⟨p, r1, hp1, hp2, hp3, hp4⟩ :=
              hrec a s s1 δ1 hw1 hδ1 P r (δ2 ++ rest) hsim
                (by rw [hinp, hδeq, List.append_assoc])
            obtain ⟨vs, r', hq1, hq2, hq3, hq4⟩ :=
              ih ks s1 s' δ2 hw hδ2 hok2 P r1 rest hp4 hp3
            refine ⟨.fvRef p :: vs, r', ?_, hq2, hq3, ?_, hq4⟩
            · simp [readFieldVals, hp1, hq1]
            · show regLookup s'.reg a = some p
              rw [hρ2]
              exact regLookup_append_some hp2 ρ2

/-- Pointer-field simulation: at every fuel, the traversal writer and
reader satisfy the `WRSim` contract over a well-formed graph. -/
theorem simRef (factory : List Nat → Option ClassDesc) (heap : List Obj)
    (hwf : heapWF factory heap = true) :
    ∀ fuel, WRSim factory heap (fun a s => writeRefP heap fuel a s) (readRefP factory fuel) := by
  have hwf2 := hwf
  simp only [heapWF, Bool.and_eq_true, decide_eq_true_eq, List.all_eq_true] at hwf2
  obtain ⟨hlen64, hall⟩ := hwf2
  intro fuel
  induction fuel with
  | zero => intro a s s' δ hw; simp [writeRefP] at hw
  | succ fuel ih =>
    intro a s s' δ hw hδ P r rest hsim hinp
    simp only [writeRefP] at hw
    cases hh : heap[a]? with
    | none => rw [hh] at hw; simp at hw
    | some o =>
      rw [hh] at hw
      have halt : a < heap.length := by
        by_contra hc
        push_neg at hc
        rw [List.getElem?_eq_none hc] at hh
        simp at hh
      have hobj := hall o (List.getElem?_mem hh)
      cases hfac : factory o.cls with
      | none =>
        unfold objWF at hobj
        rw [hfac] at hobj
        simp at hobj
      | some d =>
        unfold objWF at hobj
        rw [hfac] at hobj
        simp only [Bool.and_eq_true, decide_eq_true_eq] at hobj
        obtain ⟨⟨⟨hclsne, hclslen⟩, hclsbytes⟩, ⟨hctorkinds, hctorwf⟩, hfieldsok⟩ := hobj
        have hreglen : s.reg.length ≤ heap.length := nodup_lt_length_le hsim.nodup hsim.inHeap
        cases hrl : regLookup s.reg a with
        | some i =>
          have hpp : PutPointer s.reg a = (true, i, s.reg) := by simp [PutPointer, hrl]
          rw [hpp] at hw
          simp only [ChArchiveOutBinary.out_ref_polimorphic, Bool.not_true, Bool.false_eq_true,
            if_false, Option.some.injEq] at hw
          have hδeq : δ = wStr oID ++ wBytes 8 i := by
            have h1 : s.out ++ δ = s.out ++ (wStr oID ++ wBytes 8 i) := by
              rw [← hδ, ← hw]
              simp [emit, List.append_assoc]
            exact (List.append_cancel_left h1)
          have hi_lt : i < s.reg.length := regLookup_some_lt hrl
          have hi64 : i < 2 ^ 64 := lt_of_lt_of_le hi_lt (le_trans hreglen (le_of_lt hlen64))
          have hstr : rStr r.inp = some (oID, wBytes 8 i ++ rest) := by
            rw [hinp, hδeq, List.append_assoc]
            exact rStr_of_wStr oID_length_lt _
          have hregget : r.reg[i]? = some i := by
            rw [hsim.regsEq]
            simp [List.getElem?_range, hi_lt]
          refine ⟨i, { r with inp := rest }, ?_, ?_, rfl, ?_⟩
          · simp [readRefP, ChArchiveInBinary.in_ref_polimorphic, hstr,
              rBytes8_of_wBytes8 hi64, hregget]
          · rw [← hw]
            exact hrl
          · have h2 : Sim factory heap s'.reg P { r with inp := rest } := by
              rw [← hw]
              exact sim_set_inp hsim rest
            exact h2
        | none =>
          have hpp : PutPointer s.reg a = (false, s.reg.length, s.reg ++ [a]) := by
            simp [PutPointer, hrl]
          rw [hpp] at hw
          have hw2 : writeFields (fun a s => writeRefP heap fuel a s) o.fields
              (emit (emit { s with reg := s.reg ++ [a] } (wStr o.cls))
                (writeCtorArgs o.ctorArgs)) = some s' := hw
          obtain ⟨⟨δf, hδf⟩, ⟨ρ2, hρ2⟩⟩ :=
            writeFields_wext (fun a s s' h => writeRefP_wext heap fuel a s s' h)
              o.fields _ _ hw2
          have hδeq : δ = wStr o.cls ++ (writeCtorArgs o.ctorArgs ++ δf) := by
            have h1 : s.out ++ δ = s.out ++ (wStr o.cls ++ (writeCtorArgs o.ctorArgs ++ δf)) := by
              rw [← hδ, hδf]
              simp [emit, List.append_assoc]
            exact List.append_cancel_left h1
          have hnr : r.heap.length = s.reg.length := hsim.heapLen
          have hstr : rStr r.inp = some (o.cls, writeCtorArgs o.ctorArgs ++ (δf ++ rest)) := by
            rw [hinp, hδeq]
            rw [List.append_assoc, List.append_assoc]
            exact rStr_of_wStr hclslen _
          have hctor : readCtor factory o.cls { r with inp := writeCtorArgs o.ctorArgs ++ (δf ++ rest) }
              = .ok (some r.heap.length,
                     { r with inp := δf ++ rest,
                              heap := r.heap ++ [⟨o.cls, o.ctorArgs, []⟩] }) := by
            simp only [readCtor, hfac, ← hctorkinds]
            rw [readPrims_writeCtorArgs o.ctorArgs hctorwf _ (δf ++ rest) rfl]
          have hputr : PutPointer r.reg r.heap.length
              = (false, s.reg.length, List.range (s.reg.length + 1)) := by
            rw [hsim.regsEq, hnr]
            simp [PutPointer, regLookup_range, List.range_succ]
          have hsim3 : Sim factory heap (s.reg ++ [a]) (fun k => P k ∨ k = s.reg.length)
              { inp := δf ++ rest, reg := List.range (s.reg.length + 1),
                heap := r.heap ++ [⟨o.cls, o.ctorArgs, []⟩] } := by
            refine ⟨?_, ?_, ?_, ?_, ?_⟩
            · simp
            · simp [hnr]
            · rw [List.nodup_append]
              refine ⟨hsim.nodup, List.nodup_singleton a, ?_⟩
              intro x hx hxa
              have hnm := regLookup_none_not_mem hrl
              simp at hxa
              subst hxa
              exact hnm hx
            · intro x hx
              rcases List.mem_append.1 hx with h1 | h1
              · exact hsim.inHeap x h1
              · simp at h1
                subst h1
                exact halt
            · intro k a' o₁ o₁' h1 h2 h3
              by_cases hk : k < s.reg.length
              · have h1' : s.reg[k]? = some a' := by
                  rw [List.getElem?_append] at h1
                  simpa [hk] using h1
                have h3' : r.heap[k]? = some o₁' := by
                  rw [List.getElem?_append] at h3
                  simpa [hnr ▸ hk] using h3
                obtain ⟨hc1, hc2, hc3⟩ := hsim.objCorr k a' o₁ o₁' h1' h2 h3'
                refine ⟨hc1, hc2, fun hnp => ?_⟩
                have hnpk : ¬ P k := fun hp => hnp (Or.inl hp)
                exact fieldsCorr_mono (fun x b hxb => regLookup_append_some hxb [a]) (hc3 hnpk)
              · have hklt : k < s.reg.length + 1 := by
                  by_contra hc
                  push_neg at hc
                  rw [List.getElem?_eq_none (by simpa using hc)] at h1
                  simp at h1
                have hkeq : k = s.reg.length := by omega
                subst hkeq
                have ha' : a' = a := by
                  rw [List.getElem?_concat_length] at h1
                  simpa using h1.symm
                rw [ha'] at h2
                have ho₁ : o₁ = o := by
                  rw [hh] at h2
                  simpa using h2.symm
                have hcl := List.getElem?_concat_length r.heap (⟨o.cls, o.ctorArgs, []⟩ : Obj)
                rw [hnr] at hcl
                have ho₁' : o₁' = ⟨o.cls, o.ctorArgs, []⟩ := by
                  rw [hcl] at h3
                  simpa using h3.symm
                refine ⟨?_, ?_, fun hnp => absurd (Or.inr rfl) hnp⟩
                · rw [ho₁', ho₁]
                · rw [ho₁', ho₁]
          obtain ⟨vs, r4, hq1, hq2, hq3, hq4⟩ :=
            simFields factory heap _ _ (fun a s s' h => writeRefP_wext heap fuel a s s' h) ih
              o.fields d.fieldKinds _ s' δf hw2 hδf hfieldsok
              (fun k => P k ∨ k = s.reg.length)
              { inp := δf ++ rest, reg := List.range (s.reg.length + 1),
                heap := r.heap ++ [⟨o.cls, o.ctorArgs, []⟩] } rest hsim3 rfl
          have hρ2' : s'.reg = (s.reg ++ [a]) ++ ρ2 := hρ2
          have hgetblank : (r.heap ++ [(⟨o.cls, o.ctorArgs, []⟩ : Obj)])[r.heap.length]?
              = some ⟨o.cls, o.ctorArgs, []⟩ := List.getElem?_concat_length r.heap _
          have hfieldsOf : readFieldsOf factory (readRefP factory fuel) r.heap.length
              { inp := δf ++ rest, reg := List.range (s.reg.length + 1),
                heap := r.heap ++ [⟨o.cls, o.ctorArgs, []⟩] }
              = .ok ((), { r4 with heap := r4.heap.set r.heap.length ⟨o.cls, o.ctorArgs, vs⟩ }) := by
            simp only [readFieldsOf, hgetblank, hfac, hq1]
          refine ⟨r.heap.length,
            { r4 with heap := r4.heap.set r.heap.length ⟨o.cls, o.ctorArgs, vs⟩ },
            ?_, ?_, hq2, ?_⟩
          · simp only [readRefP, ChArchiveInBinary.in_ref_polimorphic, hstr, hctor, hputr,
              hfieldsOf]
            simp [hclsne]
          · have hfin : regLookup ((s.reg ++ [a]) ++ ρ2) a = some s.reg.length :=
              regLookup_append_some (regLookup_append_self hrl) ρ2
            rw [hnr, hρ2']
            exact hfin
          · refine ⟨hq3.regsEq, ?_, hq3.nodup, hq3.inHeap, ?_⟩
            · simpa using hq3.heapLen
            · intro k a' o₁ o₁' h1 h2 h3
              by_cases hk : k = s.reg.length
              · subst hk
                have hs'n : s'.reg[s.reg.length]? = some a := by
                  rw [hρ2']
                  rw [List.getElem?_append]
                  simp [List.getElem?_concat_length]
                have ha' : a' = a := (Option.some.inj (hs'n.symm.trans h1)).symm
                rw [ha'] at h2
                have ho₁ : o₁ = o := (Option.some.inj (hh.symm.trans h2)).symm
                have hlen4 : s.reg.length < r4.heap.length := by
                  rw [hq3.heapLen, hρ2']
                  simp
                have ho₁' : o₁' = ⟨o.cls, o.ctorArgs, vs⟩ := by
                  rw [hnr] at h3
                  rw [List.getElem?_set_eq_of_lt _ hlen4] at h3
                  exact (Option.some.inj h3).symm
                refine ⟨?_, ?_, fun _ => ?_⟩
                · rw [ho₁', ho₁]
                · rw [ho₁', ho₁]
                · rw [ho₁', ho₁]
                  exact hq4
              · have h3' : r4.heap[k]? = some o₁' := by
                  rw [hnr] at h3
                  rw [List.getElem?_set_ne (fun he => hk he.symm)] at h3
                  exact h3
                obtain ⟨hc1, hc2, hc3⟩ := hq3.objCorr k a' o₁ o₁' h1 h2 h3'
                exact ⟨hc1, hc2, fun hnp => hc3 (fun hp => hp.elim hnp hk)⟩

/-! ## Claims about the write side -/

/-- Claim C2: `out_ref_polimorphic` with `already_inserted = false` writes,
in order, the class-name string, the constructor-argument payload, and
the field payload; with `already_inserted = true` it writes exactly the
string "oID" followed by `obj_ID` and nothing else (the payload callbacks
are not consulted); and `out_ref` behaves identically except that its
fresh branch writes the empty string instead of the class name. -/
theorem out_ref_polimorphic_branch_structure (c f : List Nat) (obj_ID : Nat)
    (classname : List Nat) (s : WState) :
    ChArchiveOutBinary.out_ref_polimorphic (appendCb c) (appendCb f) false obj_ID classname s
        = some { s with out := s.out ++ (wStr classname ++ (c ++ f)) } ∧
    (∀ k1 k2 : WState → Option WState,
        ChArchiveOutBinary.out_ref_polimorphic k1 k2 true obj_ID classname s
          = some { s with out := s.out ++ (wStr oID ++ wBytes 8 obj_ID) }) ∧
    (∀ (k1 k2 : WState → Option WState) (b : Bool),
        ChArchiveOutBinary.out_ref k1 k2 b obj_ID classname s
          = ChArchiveOutBinary.out_ref_polimorphic k1 k2 b obj_ID [] s) := by
  refine ⟨?_, fun k1 k2 => ?_, fun k1 k2 b => ?_⟩
  · simp [ChArchiveOutBinary.out_ref_polimorphic, appendCb, emit, List.append_assoc]
  · simp [ChArchiveOutBinary.out_ref_polimorphic, emit, List.append_assoc]
  · cases b <;>
      simp [ChArchiveOutBinary.out_ref_polimorphic, ChArchiveOutBinary.out_ref]

/-- Claim C7 (write half is stated together with the read half): for every
well-formed primitive value of each supported kind, the bytes emitted by
`ChArchiveOutBinary::out` are read back by `ChArchiveInBinary::in` as the
identical value, leaving the rest of the stream and the archive state
untouched. -/
theorem prim_roundtrip (v : PrimVal) (h : v.wfb = true) (w : WState)
    (rest reg : List Nat) (heap : List Obj) :
    (ChArchiveOutBinary.out w v).out = w.out ++ streamWrite v ∧
    ChArchiveInBinary.inVal v.kind { inp := streamWrite v ++ rest, reg := reg, heap := heap }
      = .ok (v, { inp := rest, reg := reg, heap := heap }) := by
  refine ⟨rfl, ?_⟩
  simp [ChArchiveInBinary.inVal, streamRead_streamWrite h]

/-- Witness for `prim_roundtrip` at the 32-bit two's-complement value `-5`. -/
theorem prim_roundtrip_witness :
    (PrimVal.vInt (-5)).wfb = true ∧
    ((ChArchiveOutBinary.out ⟨[], []⟩ (.vInt (-5))).out = [] ++ streamWrite (.vInt (-5)) ∧
     ChArchiveInBinary.inVal (PrimVal.vInt (-5)).kind
        { inp := streamWrite (.vInt (-5)) ++ [9], reg := [], heap := [] }
       = .ok (.vInt (-5), { inp := [9], reg := [], heap := [] })) :=
  ⟨by decide, prim_roundtrip (.vInt (-5)) (by decide) ⟨[], []⟩ [9] [] []⟩

/-- Claim C8: `out_array_pre` writes the element count (and only that)
before any element, `out_array_between` and `out_array_end` write
nothing, and `in_array_pre` applied to the count prefix reports the same
count to the caller before any element byte is consumed. -/
theorem array_count_roundtrip (name classname : List Nat) (n : Nat)
    (hn : n < 2 ^ 64) (s : WState) (rest reg : List Nat) (heap : List Obj) :
    ChArchiveOutBinary.out_array_pre s name n classname
        = { s with out := s.out ++ wBytes 8 n } ∧
    ChArchiveOutBinary.out_array_between s n classname = s ∧
    ChArchiveOutBinary.out_array_end s n classname = s ∧
    ChArchiveInBinary.in_array_pre name { inp := wBytes 8 n ++ rest, reg := reg, heap := heap }
        = .ok (n, { inp := rest, reg := reg, heap := heap }) := by
  refine ⟨rfl, rfl, rfl, ?_⟩
  simp [ChArchiveInBinary.in_array_pre, rBytes8_of_wBytes8 hn]

/-- Witness for `array_count_roundtrip` at count 1000. -/
theorem array_count_roundtrip_witness :
    ChArchiveOutBinary.out_array_pre ⟨[], []⟩ [] 1000 []
        = { out := [] ++ wBytes 8 1000, reg := [] } ∧
    ChArchiveOutBinary.out_array_between ⟨[], []⟩ 1000 [] = ⟨[], []⟩ ∧
    ChArchiveOutBinary.out_array_end ⟨[], []⟩ 1000 [] = ⟨[], []⟩ ∧
    ChArchiveInBinary.in_array_pre [] { inp := wBytes 8 1000 ++ [7], reg := [], heap := [] }
        = .ok (1000, { inp := [7], reg := [], heap := [] }) :=
  array_count_roundtrip [] [] 1000 (by norm_num) ⟨[], []⟩ [7] [] []

/-! ## Claims about the read side -/

/-- Claim C3: when the leading string of the stream is the sentinel "oID",
both `in_ref_polimorphic` and `in_ref` read one trailing integer ID, set
the field to the registry entry at that ID, and perform no construction,
no field read, and no registry or heap update (the callbacks are never
consulted and the state changes only by consuming the two tokens). -/
theorem in_ref_oid_branch (id : Nat) (rest : List Nat) (s : RState)
    (hid : id < s.reg.length) (h64 : id < 2 ^ 64)
    (hs : s.inp = wStr oID ++ (wBytes 8 id ++ rest)) :
    ∀ (k1 : List Nat → RState → RRes (Option Nat)) (k2 : Nat → RState → RRes Unit),
      ChArchiveInBinary.in_ref_polimorphic k1 k2 s
          = .ok (s.reg.get ⟨id, hid⟩, { s with inp := rest }) ∧
      ChArchiveInBinary.in_ref k1 k2 s
          = .ok (s.reg.get ⟨id, hid⟩, { s with inp := rest }) := by
  intro k1 k2
  have hstr : rStr s.inp = some (oID, wBytes 8 id ++ rest) := by
    rw [hs]; exact rStr_of_wStr oID_length_lt _
  have hget : s.reg[id]? = some (s.reg.get ⟨id, hid⟩) := by
    simp [List.getElem?_eq_getElem hid]
  constructor <;>
    simp [ChArchiveInBinary.in_ref_polimorphic, ChArchiveInBinary.in_ref, hstr,
      rBytes8_of_wBytes8 h64, hget]

/-- Witness for `in_ref_oid_branch`: a one-entry registry resolving ID 0. -/
theorem in_ref_oid_branch_witness :
    ChArchiveInBinary.in_ref_polimorphic ctorCbNull fieldCbId
        { inp := wStr oID ++ (wBytes 8 0 ++ [5]), reg := [42], heap := [] }
        = .ok (42, { inp := [5], reg := [42], heap := [] }) ∧
    ChArchiveInBinary.in_ref ctorCbNull fieldCbId
        { inp := wStr oID ++ (wBytes 8 0 ++ [5]), reg := [42], heap := [] }
        = .ok (42, { inp := [5], reg := [42], heap := [] }) :=
  in_ref_oid_branch 0 [5] { inp := wStr oID ++ (wBytes 8 0 ++ [5]), reg := [42], heap := [] }
    (by decide) (by norm_num) rfl ctorCbNull fieldCbId

/-- Claim C4: when the leading token is a class name and the constructor
callback (class factory) yields a null raw pointer, `in_ref_polimorphic`
throws the construction error naming the unknown class, and the registry
at the failed operation is the unchanged entry registry (given that the
constructor callback itself, like `CallArchiveInConstructor`, does not
touch the registry). -/
theorem in_ref_polimorphic_ctor_failure
    (k1 : List Nat → RState → RRes (Option Nat)) (k2 : Nat → RState → RRes Unit)
    (cls rest : List Nat) (s s1 : RState)
    (hcls : cls ≠ oID) (hlen : cls.length < 2 ^ 64)
    (hs : s.inp = wStr cls ++ rest)
    (hk : k1 cls { s with inp := rest } = .ok (none, s1))
    (hreg : s1.reg = s.reg) :
    ChArchiveInBinary.in_ref_polimorphic k1 k2 s = .error (.ctorFailPoly cls, s1) ∧
    s1.reg = s.reg := by
  have hstr : rStr s.inp = some (cls, rest) := by
    rw [hs]; exact rStr_of_wStr hlen _
  refine ⟨?_, hreg⟩
  simp [ChArchiveInBinary.in_ref_polimorphic, hstr, hcls, hk]

/-- Witness for `in_ref_polimorphic_ctor_failure`: a stream carrying class
name `[65]` and a factory that creates nothing. -/
theorem in_ref_polimorphic_ctor_failure_witness :
    ChArchiveInBinary.in_ref_polimorphic ctorCbNull fieldCbId
        { inp := wStr [65] ++ [], reg := [], heap := [] }
        = .error (.ctorFailPoly [65], { inp := [], reg := [], heap := [] }) ∧
    ([] : List Nat) = [] :=
  (in_ref_polimorphic_ctor_failure ctorCbNull fieldCbId [65] []
      { inp := wStr [65] ++ [], reg := [], heap := [] }
      { inp := [], reg := [], heap := [] }
      (by decide) (by norm_num) rfl rfl rfl).imp id (fun _ => rfl)

/-- Claim C5: when "oID" is followed by an ID not yet registered in the
session registry, both `in_ref_polimorphic` and `in_ref` fail with a
dangling-reference error rather than returning an instance (resolution of
`objects_pointers` is modelled from the spec, §4.3). -/
theorem in_ref_dangling_reference (id : Nat) (rest : List Nat) (s : RState)
    (hid : s.reg.length ≤ id) (h64 : id < 2 ^ 64)
    (hs : s.inp = wStr oID ++ (wBytes 8 id ++ rest)) :
    ∀ (k1 : List Nat → RState → RRes (Option Nat)) (k2 : Nat → RState → RRes Unit),
      ChArchiveInBinary.in_ref_polimorphic k1 k2 s
          = .error (.danglingRef id, { s with inp := rest }) ∧
      ChArchiveInBinary.in_ref k1 k2 s
          = .error (.danglingRef id, { s with inp := rest }) := by
  intro k1 k2
  have hstr : rStr s.inp = some (oID, wBytes 8 id ++ rest) := by
    rw [hs]; exact rStr_of_wStr oID_length_lt _
  have hget : s.reg[id]? = none := by
    simp [List.getElem?_eq_none hid]
  constructor <;>
    simp [ChArchiveInBinary.in_ref_polimorphic, ChArchiveInBinary.in_ref, hstr,
      rBytes8_of_wBytes8 h64, hget]

/-- Witness for `in_ref_dangling_reference`: ID 3 against an empty registry. -/
theorem in_ref_dangling_reference_witness :
    ChArchiveInBinary.in_ref_polimorphic ctorCbNull fieldCbId
        { inp := wStr oID ++ (wBytes 8 3 ++ []), reg := [], heap := [] }
        = .error (.danglingRef 3, { inp := [], reg := [], heap := [] }) ∧
    ChArchiveInBinary.in_ref ctorCbNull fieldCbId
        { inp := wStr oID ++ (wBytes 8 3 ++ []), reg := [], heap := [] }
        = .error (.danglingRef 3, { inp := [], reg := [], heap := [] }) :=
  in_ref_dangling_reference 3 [] { inp := wStr oID ++ (wBytes 8 3 ++ []), reg := [], heap := [] }
    (by decide) (by norm_num) rfl ctorCbNull fieldCbId

/-- Claim C9: for a custom (embedded, non-pointer) object, if the field's
flags contain `NVP_TRACK_OBJECT` the object's raw identity is registered
(appended, when fresh) before the recursive field read begins; if the
flag is absent the registry is not touched by this operation. -/
theorem inCustom_track_object (flags rawPtr : Nat) (k : RState → RRes Unit) (s : RState) :
    (flags &&& ChArchiveInBinary.NVP_TRACK_OBJECT ≠ 0 → regLookup s.reg rawPtr = none →
        ChArchiveInBinary.inCustom flags rawPtr k s = k { s with reg := s.reg ++ [rawPtr] }) ∧
    (flags &&& ChArchiveInBinary.NVP_TRACK_OBJECT = 0 →
        ChArchiveInBinary.inCustom flags rawPtr k s = k s) := by
  constructor
  · intro hflag hfresh
    simp [ChArchiveInBinary.inCustom, hflag, PutPointer, hfresh]
  · intro hflag
    simp [ChArchiveInBinary.inCustom, hflag]

/-- Witness for `inCustom_track_object`: flag set registers identity 7 in
an empty registry; flag clear leaves the state alone. -/
theorem inCustom_track_object_witness :
    ChArchiveInBinary.inCustom 1 7 customCbId { inp := [], reg := [], heap := [] }
        = customCbId { inp := [], reg := [] ++ [7], heap := [] } ∧
    ChArchiveInBinary.inCustom 0 7 customCbId { inp := [], reg := [], heap := [] }
        = customCbId { inp := [], reg := [], heap := [] } :=
  ⟨(inCustom_track_object 1 7 customCbId { inp := [], reg := [], heap := [] }).1
      (by decide) rfl,
   (inCustom_track_object 0 7 customCbId { inp := [], reg := [], heap := [] }).2
      (by decide)⟩

/-- Claim C10: on every input, `in_ref` and `in_ref_polimorphic` perform
identical stream reads, registry updates and produce the same field
value, differing only in the text of the construction exception; and
`in_ref`'s fresh branch forwards the class-name string read from the
stream (empty, for streams produced by `out_ref`) to the constructor
callback and registers the constructed instance before its field read. -/
theorem in_ref_refines_polimorphic
    (k1 : List Nat → RState → RRes (Option Nat)) (k2 : Nat → RState → RRes Unit)
    (s : RState) :
    sameUpToCtorMsg (ChArchiveInBinary.in_ref_polimorphic k1 k2 s)
        (ChArchiveInBinary.in_ref k1 k2 s) ∧
    (∀ cls rest, cls.length < 2 ^ 64 → cls ≠ oID → s.inp = wStr cls ++ rest →
        ChArchiveInBinary.in_ref k1 k2 s =
          (match k1 cls { s with inp := rest } with
           | .error e => .error e
           | .ok (some p, s2) =>
             (match k2 p { s2 with reg := (PutPointer s2.reg p).2.2 } with
              | .error e => .error e
              | .ok (_, s4) => .ok (p, s4))
           | .ok (none, s2) => .error (.ctorFailPlain, s2))) := by
  constructor
  · cases hstr : rStr s.inp with
    | none =>
      simp [ChArchiveInBinary.in_ref_polimorphic, ChArchiveInBinary.in_ref, hstr,
        sameUpToCtorMsg]
    | some pr =>
      obtain ⟨cls, rest⟩ := pr
      by_cases hcls : cls = oID
      · subst hcls
        cases h8 : rBytes 8 rest with
        | none =>
          simp [ChArchiveInBinary.in_ref_polimorphic, ChArchiveInBinary.in_ref, hstr,
            h8, sameUpToCtorMsg]
        | some pr2 =>
          obtain ⟨id, rest2⟩ := pr2
          cases hget : s.reg[id]? <;>
            simp [ChArchiveInBinary.in_ref_polimorphic, ChArchiveInBinary.in_ref, hstr,
              h8, hget, sameUpToCtorMsg]
      · cases hk : k1 cls { s with inp := rest } with
        | error e =>
          simp [ChArchiveInBinary.in_ref_polimorphic, ChArchiveInBinary.in_ref, hstr,
            hcls, hk, sameUpToCtorMsg]
        | ok pr2 =>
          obtain ⟨ptr?, s2⟩ := pr2
          cases ptr? with
          | none =>
            simp [ChArchiveInBinary.in_ref_polimorphic, ChArchiveInBinary.in_ref, hstr,
              hcls, hk, sameUpToCtorMsg]
          | some p =>
            cases hk2 : k2 p { s2 with reg := (PutPointer s2.reg p).2.2 } with
            | error e =>
              simp [ChArchiveInBinary.in_ref_polimorphic, ChArchiveInBinary.in_ref, hstr,
                hcls, hk, hk2, sameUpToCtorMsg]
            | ok pr3 =>
              obtain ⟨u, s4⟩ := pr3
              simp [ChArchiveInBinary.in_ref_polimorphic, ChArchiveInBinary.in_ref, hstr,
                hcls, hk, hk2, sameUpToCtorMsg]
  · intro cls rest hlen hcls hs
    have hstr : rStr s.inp = some (cls, rest) := by
      rw [hs]; exact rStr_of_wStr hlen _
    unfold ChArchiveInBinary.in_ref
    rw [hstr]
    simp only [if_pos (by simpa using hcls)]
    cases hk : k1 cls { s with inp := rest } with
    | error e => rfl
    | ok pr =>
      obtain ⟨ptr?, s2⟩ := pr
      cases ptr? with
      | none => rfl
      | some p =>
        cases hk2 : k2 p { s2 with reg := (PutPointer s2.reg p).2.2 } <;> simp [hk2]

/-- Witness for `in_ref_refines_polimorphic`: the forwarding clause applied
to a concrete stream carrying class name `[65]` and the null factory. -/
theorem in_ref_refines_polimorphic_witness :
    ChArchiveInBinary.in_ref ctorCbNull fieldCbId
        { inp := wStr [65] ++ [], reg := [], heap := [] }
        = .error (.ctorFailPlain, { inp := [], reg := [], heap := [] }) := by
  have h := (in_ref_refines_polimorphic ctorCbNull fieldCbId
      { inp := wStr [65] ++ [], reg := [], heap := [] }).2 [65] []
      (by norm_num) (by decide) rfl
  simpa [ctorCbNull] using h


/-! ## Whole-graph claims -/

/-- Claim C1: serializing an object graph from its root with
`writeRefP`/`out_ref_polimorphic` and reading the bytes back with
`readRefP`/`in_ref_polimorphic` succeeds, consumes exactly the written
bytes, builds exactly one instance per registered object, registers the
reconstruction of the object assigned ID `n` on write at sequential ID
`n` on read, reconstructs every registered object's class, constructor
arguments and fields up to the address correspondence, and maps any two
reference fields sharing one target on write to the same reconstructed
instance (pointer equality after reload). -/
theorem graph_roundtrip_identity (factory : List Nat → Option ClassDesc)
    (heap : List Obj) (root fuel : Nat) (wS : WState)
    (hwf : heapWF factory heap = true)
    (hw : writeRefP heap fuel root ⟨[], []⟩ = some wS) (rest : List Nat) :
    ∃ rootR r',
      readRefP factory fuel { inp := wS.out ++ rest, reg := [], heap := [] }
          = .ok (rootR, r') ∧
      regLookup wS.reg root = some rootR ∧
      r'.inp = rest ∧
      r'.reg = List.range wS.reg.length ∧
      r'.heap.length = wS.reg.length ∧
      (∀ (n a : Nat) (o o' : Obj), wS.reg[n]? = some a → heap[a]? = some o → r'.heap[n]? = some o' →
          o'.cls = o.cls ∧ o'.ctorArgs = o.ctorArgs ∧ fieldsCorr wS.reg o.fields o'.fields) ∧
      (∀ (n1 a1 : Nat) (o1 o1' : Obj) (n2 a2 : Nat) (o2 o2' : Obj) (i j b : Nat),
          wS.reg[n1]? = some a1 → heap[a1]? = some o1 → r'.heap[n1]? = some o1' →
          wS.reg[n2]? = some a2 → heap[a2]? = some o2 → r'.heap[n2]? = some o2' →
          o1.fields[i]? = some (.fvRef b) → o2.fields[j]? = some (.fvRef b) →
          o1'.fields[i]? = o2'.fields[j]?) := by
  have hsim0 : Sim factory heap ([] : List Nat) (fun _ => False)
      { inp := wS.out ++ rest, reg := [], heap := [] } := by
    refine ⟨by simp, by simp, by simp, by simp, ?_⟩
    intro k a o o' h1 h2 h3
    simp at h1
  obtain ⟨p, r', hr1, hr2, hr3, hr4⟩ :=
    simRef factory heap hwf fuel root ⟨[], []⟩ wS wS.out hw (by simp) (fun _ => False)
      { inp := wS.out ++ rest, reg := [], heap := [] } rest hsim0 rfl
  refine ⟨p, r', hr1, hr2, hr3, hr4.regsEq, hr4.heapLen, ?_, ?_⟩
  · intro n a o o' h1 h2 h3
    obtain ⟨hc1, hc2, hc3⟩ := hr4.objCorr n a o o' h1 h2 h3
    exact ⟨hc1, hc2, hc3 (fun h => h)⟩
  · intro n1 a1 o1 o1' n2 a2 o2 o2' i j b h1 h2 h3 h4 h5 h6 hf1 hf2
    obtain ⟨hd1, hd2, hd3⟩ := hr4.objCorr n1 a1 o1 o1' h1 h2 h3
    obtain ⟨he1, he2, he3⟩ := hr4.objCorr n2 a2 o2 o2' h4 h5 h6
    obtain ⟨c, hcf, hcl⟩ := fieldsCorr_getElem (hd3 (fun h => h)) hf1
    obtain ⟨c', hcf', hcl'⟩ := fieldsCorr_getElem (he3 (fun h => h)) hf2
    rw [hcf, hcf']
    have hcc : c = c' := Option.some.inj (hcl.symm.trans hcl')
    rw [hcc]

/-- Witness for `graph_roundtrip_identity`: the diamond graph of spec §8
(`root -> {childA, childB}`, both children referencing one shared
object). -/
theorem graph_roundtrip_identity_witness :
    ∃ rootR r',
      readRefP demoFactory 5 { inp := demoOut.out ++ [], reg := [], heap := [] }
          = .ok (rootR, r') ∧
      regLookup demoOut.reg 0 = some rootR ∧
      r'.inp = [] ∧
      r'.reg = List.range demoOut.reg.length ∧
      r'.heap.length = demoOut.reg.length ∧
      (∀ (n a : Nat) (o o' : Obj), demoOut.reg[n]? = some a → demoHeap[a]? = some o → r'.heap[n]? = some o' →
          o'.cls = o.cls ∧ o'.ctorArgs = o.ctorArgs ∧ fieldsCorr demoOut.reg o.fields o'.fields) ∧
      (∀ (n1 a1 : Nat) (o1 o1' : Obj) (n2 a2 : Nat) (o2 o2' : Obj) (i j b : Nat),
          demoOut.reg[n1]? = some a1 → demoHeap[a1]? = some o1 → r'.heap[n1]? = some o1' →
          demoOut.reg[n2]? = some a2 → demoHeap[a2]? = some o2 → r'.heap[n2]? = some o2' →
          o1.fields[i]? = some (.fvRef b) → o2.fields[j]? = some (.fvRef b) →
          o1'.fields[i]? = o2'.fields[j]?) :=
  graph_roundtrip_identity demoFactory demoHeap 0 5 demoOut (by decide) rfl []

/-- Claim C6 counterexample: for a class literally named "oID", written
as a first-time object (the factory does know the class), the reader
does NOT reconstruct a new instance: on the resulting stream the read
takes the back-reference branch and here fails with a dangling
reference. -/
theorem oid_class_name_confusion :
    oidFactory oID = some ⟨[.kULongLong], []⟩ ∧
    writeRefP oidHeap 2 0 ⟨[], []⟩ = some oidOut ∧
    readRefP oidFactory 2 { inp := oidOut.out, reg := [], heap := [] }
      = .error (.danglingRef 5, { inp := [], reg := [], heap := [] }) :=
  ⟨rfl, rfl, rfl⟩

/-- Claim C6 (amended): the engine does confuse a real class named "oID"
with a back-reference: the first-time encoding of such an object starts
with the sentinel bytes, and on any such stream `in_ref_polimorphic`
takes the back-reference branch, interpreting the constructor payload as
a registry ID — resolving it when registered, else failing with a
dangling reference — and never constructs an instance. -/
theorem in_ref_polimorphic_oid_backref (m : Nat) (hm : m < 2 ^ 64) :
    writeRefP (oidHeapW m) 2 0 ⟨[], []⟩
      = some ⟨wStr oID ++ wBytes 8 m, [0]⟩ ∧
    ∀ (r : RState), r.inp = wStr oID ++ wBytes 8 m →
      readRefP oidFactory 2 r
        = (match r.reg[m]? with
           | some p => .ok (p, { r with inp := [] })
           | none => .error (.danglingRef m, { r with inp := [] })) := by
  constructor
  · simp [writeRefP, oidHeapW, PutPointer, regLookup, ChArchiveOutBinary.out_ref_polimorphic,
      appendCb, writeFields, writeCtorArgs, emit, streamWrite]
  · intro r hinp
    have hstr : rStr r.inp = some (oID, wBytes 8 m) := by
      rw [hinp]
      exact rStr_of_wStr oID_length_lt _
    have h8 : rBytes 8 (wBytes 8 m) = some (m, []) := by
      simpa using rBytes8_of_wBytes8 hm []
    cases hget : r.reg[m]? with
    | some p =>
      simp [readRefP, ChArchiveInBinary.in_ref_polimorphic, hstr, h8, hget]
    | none =>
      simp [readRefP, ChArchiveInBinary.in_ref_polimorphic, hstr, h8, hget]

/-- Witness for `in_ref_polimorphic_oid_backref` at constructor payload 5
against an empty registry. -/
theorem in_ref_polimorphic_oid_backref_witness :
    writeRefP (oidHeapW 5) 2 0 ⟨[], []⟩
      = some ⟨wStr oID ++ wBytes 8 5, [0]⟩ ∧
    readRefP oidFactory 2 { inp := wStr oID ++ wBytes 8 5, reg := [], heap := [] }
      = .error (.danglingRef 5, { inp := [], reg := [], heap := [] }) := by
  obtain ⟨h1, h2⟩ := in_ref_polimorphic_oid_backref 5 (by norm_num)
  refine ⟨h1, ?_⟩
  have h3 := h2 { inp := wStr oID ++ wBytes 8 5, reg := [], heap := [] } rfl
  simpa using h3

end ChronoSpec
